import Mathlib

/-!
Shallow embedding of the table-extraction core of `lta_rankings_gui.pyw`
(repository AudrinaTournamentTool).

A pandas `DataFrame` produced by `read_html` is modelled as a `Table`:
a list of header labels plus body rows, where each cell is `none` for a
missing (NaN) value and `some s` for the string `s`.  `read_html` itself
is external; its outcome is modelled as `Option (List Table)`, with
`none` standing for the `ValueError` raised when no table can be parsed.
Python string operations (`strip`, `startswith`, substring membership,
`lower`) are modelled over the character lists backing `String`.
-/

/-- A parsed table: header labels and body rows.  A cell is `none` for a
missing (NaN) value and `some s` for the string `s`. -/
structure Table where
  headers : List String
  rows : List (List (Option String))
deriving DecidableEq, Repr

/-- Python `str.strip` on a character list: whitespace dropped from both ends. -/
def stripChars (l : List Char) : List Char :=
  ((l.dropWhile Char.isWhitespace).reverse.dropWhile Char.isWhitespace).reverse

/-- Python `str.strip`. -/
def pyStrip (s : String) : String := ⟨stripChars s.data⟩

/-- Python `str.lower` on one character, for the ASCII letters that occur in
the table text (`A`..`Z` shifted to `a`..`z`, everything else unchanged). -/
def lowerChar (c : Char) : Char :=
  if 65 <= c.toNat && c.toNat <= 90 then Char.ofNat (c.toNat + 32) else c

/-- Python `str.lower` / pandas `str.lower()`. -/
def pyLower (s : String) : String := ⟨s.data.map lowerChar⟩

/-- Substring membership over character lists (`pat` occurs inside `s`). -/
def hasSubstr : List Char → List Char → Bool
  | s, pat =>
    match s with
    | [] => pat.isEmpty
    | _ :: tl => pat.isPrefixOf s || hasSubstr tl pat

/-- Python `pat in s` / pandas `str.contains` with a plain pattern. -/
def containsSub (s pat : String) : Bool := hasSubstr s.data pat.data

/-- Python `str.startswith`. -/
def pyStartsWith (s p : String) : Bool := p.data.isPrefixOf s.data

/-- pandas `astype(str)` on one cell: NaN prints as "nan". -/
def cellStr : Option String → String
  | none => "nan"
  | some s => s

/-- `df[c]` restricted to one row: the cell under the first column
labelled `c`, or `none` when the row has no cell there. -/
def getCell : List String → List (Option String) → String → Option String
  | h :: hs, x :: xs, c => if h = c then x else getCell hs xs c
  | _, _, _ => none

/-- Keep the entries of a list selected by a Boolean mask (column
selection by a Boolean vector, as in `df.loc[:, mask]`). -/
def applyMask : List Bool → List α → List α
  | b :: bs, x :: xs => if b then x :: applyMask bs xs else applyMask bs xs
  | _, _ => []

/-- `df.columns = [str(c).strip() for c in df.columns]`, done at the top of
both extraction loops. -/
def trimHeaders (t : Table) : Table :=
  { headers := t.headers.map pyStrip, rows := t.rows }

/-- `rank_str.str.contains("page|results", case=False, na=False)` for one row. -/
def isBadRank (hs : List String) (r : List (Option String)) : Bool :=
  containsSub (pyLower (cellStr (getCell hs r "Rank"))) "page" ||
  containsSub (pyLower (cellStr (getCell hs r "Rank"))) "results"

/-- `player_str.ne("") & player_str.ne("Player")` for one row, where
`player_str = df["Player"].astype(str).str.strip()`. -/
def playerOk (hs : List String) (r : List (Option String)) : Bool :=
  pyStrip (cellStr (getCell hs r "Player")) != "" &&
  pyStrip (cellStr (getCell hs r "Player")) != "Player"

/-- The two successive row filters of `extract_ranking_table`
(`df = df[~is_bad]` then `df = df[player_str.ne("") & player_str.ne("Player")]`). -/
def filterRankingRows (t : Table) : Table :=
  let rows1 := t.rows.filter (fun r => !isBadRank t.headers r)
  { t with rows := rows1.filter (fun r => playerOk t.headers r) }

/-- Column-keep test of `~df.columns.astype(str).str.startswith("Unnamed")`. -/
def notUnnamed (h : String) : Bool := !pyStartsWith h "Unnamed"

/-- `df = df.loc[:, ~df.columns.astype(str).str.startswith("Unnamed")]`. -/
def dropUnnamedCols (t : Table) : Table :=
  { headers := applyMask (t.headers.map notUnnamed) t.headers,
    rows := t.rows.map (applyMask (t.headers.map notUnnamed)) }

/-- The fixed `rename_map` of `extract_ranking_table`, as a total function. -/
def renameCol (h : String) : String :=
  if h = "Singles points" then "Singles Points"
  else if h = "Doubles points" then "Doubles Points"
  else h

/-- `df.rename(columns=rename_map, inplace=True)`. -/
def renameCols (t : Table) : Table :=
  { headers := t.headers.map renameCol, rows := t.rows }

/-- The whole per-candidate sanitization of `extract_ranking_table`:
row filters, then the Unnamed-column drop, then the rename. -/
def sanitizeRanking (t : Table) : Table :=
  renameCols (dropUnnamedCols (filterRankingRows t))

/-- `"Rank" in cols and "Player" in cols` (post-trim). -/
def rankingMatches (t : Table) : Bool :=
  t.headers.contains "Rank" && t.headers.contains "Player"

/-- The candidate loop of `extract_ranking_table`. -/
def findRanking : List Table → Option Table
  | [] => none
  | df :: rest =>
    if rankingMatches (trimHeaders df) then some (sanitizeRanking (trimHeaders df))
    else findRanking rest

/-- `extract_ranking_table`.  The argument is the outcome of
`pd.read_html`: `none` models the `ValueError` caught at the top. -/
def extract_ranking_table : Option (List Table) → Option Table
  | none => none
  | some tables => findRanking tables

/-- `"Name" in cols and any("date" in c.lower() for c in cols)` (post-trim). -/
def entriesMatches (t : Table) : Bool :=
  t.headers.contains "Name" && t.headers.any (fun c => containsSub (pyLower c) "date")

/-- `df["Status"].astype(str).str.lower().str.contains("withdrawn", na=False)`
for one row. -/
def withdrawnRow (hs : List String) (r : List (Option String)) : Bool :=
  containsSub (pyLower (cellStr (getCell hs r "Status"))) "withdrawn"

/-- `if "Status" in df.columns: df = df[~status_str.str.contains("withdrawn")]`. -/
def filterWithdrawn (t : Table) : Table :=
  if t.headers.contains "Status" then
    { t with rows := t.rows.filter (fun r => !withdrawnRow t.headers r) }
  else t

/-- `df = df.dropna(subset=["Name"])`. -/
def dropnaName (t : Table) : Table :=
  { t with rows := t.rows.filter (fun r => (getCell t.headers r "Name").isSome) }

/-- `invalid_names = {"", "name", "nan", "none"}`. -/
def invalidNames : List String := ["", "name", "nan", "none"]

/-- The Name values surviving the entries sanitization of
`extract_online_entries_table`: Withdrawn filter, `dropna` on Name,
`astype(str).str.strip()`, then the placeholder filter.  The projection
`df[["Name"]]` makes the trimmed Name values the whole record. -/
def entryNames (t : Table) : List String :=
  let t2 := dropnaName (filterWithdrawn t)
  let names := t2.rows.map (fun r => pyStrip (cellStr (getCell t2.headers r "Name")))
  names.filter (fun n => !invalidNames.contains (pyLower n))

/-- The value returned per selected entries candidate: `df[["Name"]]`. -/
def sanitizeEntriesTable (t : Table) : Table :=
  { headers := ["Name"], rows := (entryNames t).map (fun n => [some n]) }

/-- The candidate loop of `extract_online_entries_table`, including the
`if df.empty: continue` step. -/
def findEntries : List Table → Option Table
  | [] => none
  | df :: rest =>
    if entriesMatches (trimHeaders df) then
      if (entryNames (trimHeaders df)).isEmpty then findEntries rest
      else some (sanitizeEntriesTable (trimHeaders df))
    else findEntries rest

/-- `extract_online_entries_table`.  As above, `none` input models the
`ValueError` of `pd.read_html`. -/
def extract_online_entries_table : Option (List Table) → Option Table
  | none => none
  | some tables => findEntries tables

/-- `pages_needed = math.ceil(max_players / results_per_page)` (exact
integer arithmetic: the ceiling of the true quotient). -/
def pagesNeeded (max_players results_per_page : Nat) : Nat :=
  (max_players + results_per_page - 1) / results_per_page

/-- `total_rows = sum(len(t) for t in all_tables)`. -/
def totalRows (ts : List Table) : Nat := (ts.map (fun t => t.rows.length)).sum

/-- What one loop iteration of `scrape_rankings` appends to `all_tables`:
the page's extraction result when it is neither `None` nor empty,
nothing otherwise.  `fetch` models rendering page `p` and running
`extract_ranking_table` on its markup. -/
def pageYield (fetch : Nat → Option Table) (page : Nat) : List Table :=
  match fetch page with
  | some t => if t.rows.isEmpty then [] else [t]
  | none => []

/-- The `for page in range(1, pages_needed + 1)` loop of `scrape_rankings`,
with the `if total_rows >= max_players: break` early exit. -/
def collectPages (fetch : Nat → Option Table) (maxp : Nat) :
    Nat → Nat → List Table → List Table
  | 0, _, acc => acc
  | fuel + 1, page, acc =>
    if maxp ≤ totalRows (acc ++ pageYield fetch page) then acc ++ pageYield fetch page
    else collectPages fetch maxp fuel (page + 1) (acc ++ pageYield fetch page)

/-- The yields of `n` consecutive pages starting at `page`, in page order. -/
def pagesConcat (fetch : Nat → Option Table) (page n : Nat) : List Table :=
  ((List.range n).map (fun i => pageYield fetch (page + i))).flatten

/-- Column union of `pd.concat`, in order of first appearance. -/
def unionHeaders (ts : List Table) : List String :=
  ts.foldl (fun acc t => acc ++ t.headers.filter (fun h => !acc.contains h)) []

/-- `pd.concat(all_tables, ignore_index=True)`: rows in table order,
reindexed over the header union, missing cells NaN. -/
def concatTables (ts : List Table) : Table :=
  { headers := unionHeaders ts,
    rows := (ts.map (fun t =>
      t.rows.map (fun r => (unionHeaders ts).map (fun h => getCell t.headers r h)))).flatten }

/-- `if "Rank.1" in combined.columns: combined.drop(columns=["Rank.1"])`. -/
def dropRank1 (t : Table) : Table :=
  if t.headers.contains "Rank.1" then
    { headers := applyMask (t.headers.map (fun h => !(h == "Rank.1"))) t.headers,
      rows := t.rows.map (applyMask (t.headers.map (fun h => !(h == "Rank.1")))) }
  else t

/-- The pure content of `scrape_rankings`: collect pages, fail when nothing
was scraped, otherwise concatenate, truncate (`combined.iloc[:max_players]`)
and drop the `Rank.1` artifact column. -/
def scrape_rankings (fetch : Nat → Option Table) (max_players results_per_page : Nat) :
    Option Table :=
  let tables := collectPages fetch max_players (pagesNeeded max_players results_per_page) 1 []
  if tables.isEmpty then none
  else
    some (dropRank1 { headers := (concatTables tables).headers,
                      rows := (concatTables tables).rows.take max_players })

/-- The row-drop condition of the spec for ranking sanitization: the
stringified Rank cell contains "page" or "results" case-insensitively, or
the trimmed Player cell is empty or literally "Player". -/
def droppedRankingRow (hs : List String) (r : List (Option String)) : Bool :=
  containsSub (pyLower (cellStr (getCell hs r "Rank"))) "page" ||
  containsSub (pyLower (cellStr (getCell hs r "Rank"))) "results" ||
  (pyStrip (cellStr (getCell hs r "Player")) == "") ||
  (pyStrip (cellStr (getCell hs r "Player")) == "Player")

/-- The row-keep condition of the spec for entries sanitization: not
Withdrawn (when a Status column exists), non-null Name, and the trimmed
lowercased Name outside the placeholder set. -/
def keepEntryRow (hs : List String) (r : List (Option String)) : Bool :=
  (!(hs.contains "Status") || !withdrawnRow hs r) &&
  (getCell hs r "Name").isSome &&
  !invalidNames.contains (pyLower (pyStrip (cellStr (getCell hs r "Name"))))

/-- Concrete ranking page: real rows mixed with a pagination row, a repeated
header row, a blank-Player row, an Unnamed column and a rename target. -/
def cT1 : Table :=
  ⟨["Rank", " Player ", "Unnamed: 0", "Singles points"],
   [[some "1", some " Ann ", some "x", some "10"],
    [some "Page 1 of 3 results", some "z", some "y", some "0"],
    [some "2", some "Player", some "w", some "5"],
    [some "3", some "", some "v", some "4"],
    [some "4", some "Bob", some "u", some "7"]]⟩

/-- A second, clean ranking candidate (used after the first match). -/
def cT2 : Table := ⟨["Rank", "Player"], [[some "9", some "Zoe"]]⟩

/-- A ranking candidate whose body sanitizes to zero rows. -/
def cTEmpty : Table :=
  ⟨["Rank", "Player"], [[some "Page 1 results", some "z"], [some "5", some "Player"]]⟩

/-- A candidate matching neither schema. -/
def cNoMatch : Table := ⟨["A", "B"], [[some "1", some "2"]]⟩

/-- Concrete entries page with a Withdrawn row, a null Name, a repeated
header row and a placeholder value. -/
def cE1 : Table :=
  ⟨["Name", "Date of entry", "Status"],
   [[some "  Alex Smith  ", some "1 Jan", some "Ok"],
    [some "Carol", some "2 Jan", some "WITHDRAWN late"],
    [none, some "3 Jan", some "Ok"],
    [some "Name", some "4 Jan", some "Ok"],
    [some " NaN ", some "5 Jan", some "Ok"]]⟩

/-- An entries candidate matching the schema but sanitizing to zero rows. -/
def cEEmpty : Table := ⟨["Name", "Entry date"], [[some "  ", some "d"], [none, some "e"]]⟩

/-- A concatenated result carrying the `Rank.1` artifact column. -/
def cRank1Tbl : Table :=
  ⟨["Rank", "Player", "Rank.1"], [[some "1", some "Ann", some "1"]]⟩

/-- A concatenated result without the artifact column. -/
def cPlainTbl : Table := ⟨["Rank", "Player"], [[some "1", some "Ann"]]⟩

/-- A concrete fetch schedule: pages 1 and 2 carry two ranking rows each,
later pages nothing. -/
def cFetch : Nat → Option Table := fun p =>
  if p = 1 then some ⟨["Rank", "Player"], [[some "1", some "A"], [some "2", some "B"]]⟩
  else if p = 2 then some ⟨["Rank", "Player"], [[some "3", some "C"], [some "4", some "D"]]⟩
  else none

/-! ## General list lemmas for masks, cells and stripping -/

theorem getCell_nil_row (L : List String) (c : String) : getCell L [] c = none := by
  cases L <;> rfl

theorem getCell_nil_headers (r : List (Option String)) (c : String) :
    getCell [] r c = none := by
  cases r <;> rfl

theorem applyMask_nil_mask (l : List α) : applyMask [] l = [] := by
  cases l <;> rfl

theorem applyMask_nil_list (bs : List Bool) : applyMask bs ([] : List α) = [] := by
  cases bs <;> rfl

theorem applyMask_map_self (p : α → Bool) (l : List α) :
    applyMask (l.map p) l = l.filter p := by
  induction l with
  | nil => rfl
  | cons x xs ih => by_cases h : p x = true <;> simp [applyMask, List.filter_cons, h, ih]

theorem applyMask_sublist (bs : List Bool) (l : List α) : (applyMask bs l).Sublist l := by
  induction bs generalizing l with
  | nil => simp [applyMask_nil_mask]
  | cons b bs ih =>
    cases l with
    | nil => simp [applyMask_nil_list]
    | cons x xs =>
      by_cases h : b = true
      · simpa [applyMask, h] using (ih xs).cons₂ x
      · simp only [applyMask, h, if_false]
        exact (ih xs).cons x

theorem applyMask_all_true (bs : List Bool) (l : List α) (h : ∀ b ∈ bs, b = true) :
    applyMask bs l = l.take bs.length := by
  induction bs generalizing l with
  | nil => simp [applyMask_nil_mask]
  | cons b bs ih =>
    cases l with
    | nil => simp [applyMask_nil_list]
    | cons x xs =>
      have hb : b = true := h b (by simp)
      simp [applyMask, hb, ih xs (fun b hb => h b (by simp [hb]))]

theorem applyMask_map_length_le (p : α → Bool) (l₁ : List α) (l₂ : List β) :
    (applyMask (l₁.map p) l₂).length ≤ (l₁.filter p).length := by
  induction l₁ generalizing l₂ with
  | nil => simp [applyMask_nil_mask]
  | cons x xs ih =>
    cases l₂ with
    | nil => simp [applyMask_nil_list]
    | cons y ys =>
      by_cases h : p x = true
      · simp only [List.map_cons, applyMask, h, if_true, List.filter_cons, List.length_cons]
        exact Nat.succ_le_succ (ih ys)
      · simp only [List.map_cons, applyMask, h, if_false, List.filter_cons]
        exact ih ys

theorem map_eq_self_of_mem {f : α → α} {l : List α} (h : ∀ a ∈ l, f a = a) :
    l.map f = l := by
  induction l with
  | nil => rfl
  | cons x xs ih => simp [h x (by simp), ih (fun a ha => h a (by simp [ha]))]

theorem dropWhile_head_false {p : α → Bool} {l : List α} {x : α} {xs : List α}
    (h : l.dropWhile p = x :: xs) : p x = false := by
  induction l with
  | nil => simp [List.dropWhile] at h
  | cons a as ih =>
    rw [List.dropWhile_cons] at h
    by_cases ha : p a = true
    · rw [if_pos ha] at h; exact ih h
    · rw [if_neg ha] at h
      cases h
      exact Bool.of_not_eq_true ha

theorem dropWhile_dropWhile (p : α → Bool) (l : List α) :
    (l.dropWhile p).dropWhile p = l.dropWhile p := by
  cases hd : l.dropWhile p with
  | nil => rfl
  | cons x xs => rw [List.dropWhile_cons, if_neg (by simp [dropWhile_head_false hd])]

theorem dropWhile_append_eq (p : α → Bool) (l : List α) :
    ∃ s, l = s ++ l.dropWhile p := by
  induction l with
  | nil => exact ⟨[], rfl⟩
  | cons a as ih =>
    rw [List.dropWhile_cons]
    by_cases ha : p a = true
    · obtain ⟨s, hs⟩ := ih
      exact ⟨a :: s, by simp [ha, ← hs]⟩
    · exact ⟨[], by simp [ha]⟩

theorem stripChars_head_false {l : List Char} {x : Char} {xs : List Char}
    (h : stripChars l = x :: xs) : Char.isWhitespace x = false := by
  unfold stripChars at h
  have h' : (l.dropWhile Char.isWhitespace).reverse.dropWhile Char.isWhitespace
      = (x :: xs).reverse := by
    rw [← h, List.reverse_reverse]
  obtain ⟨s, hs⟩ := dropWhile_append_eq Char.isWhitespace
    (l.dropWhile Char.isWhitespace).reverse
  rw [h'] at hs
  have hd : l.dropWhile Char.isWhitespace = x :: (xs ++ s.reverse) := by
    have hc := congrArg List.reverse hs
    rw [List.reverse_reverse, List.reverse_append, List.reverse_reverse] at hc
    simpa using hc
  exact dropWhile_head_false hd

theorem stripChars_idem (l : List Char) : stripChars (stripChars l) = stripChars l := by
  cases h : stripChars l with
  | nil => rfl
  | cons x xs =>
    have hx : Char.isWhitespace x = false := stripChars_head_false h
    have hkey : (l.dropWhile Char.isWhitespace).reverse.dropWhile Char.isWhitespace
        = (x :: xs).reverse := by
      unfold stripChars at h
      rw [← h, List.reverse_reverse]
    have h2 : (x :: xs).reverse.dropWhile Char.isWhitespace = (x :: xs).reverse := by
      have hd := dropWhile_dropWhile Char.isWhitespace
        (l.dropWhile Char.isWhitespace).reverse
      rw [hkey] at hd
      exact hd
    unfold stripChars
    rw [List.dropWhile_cons, if_neg (show ¬(Char.isWhitespace x = true) by simp [hx]),
      h2, List.reverse_reverse]

theorem pyStrip_idem (s : String) : pyStrip (pyStrip s) = pyStrip s := by
  unfold pyStrip
  exact congrArg String.mk (stripChars_idem s.data)

theorem getCell_mask_rename (p : String → Bool) (g : String → String) (c : String)
    (hc : p c = true) (hg : ∀ h, g h = c → h = c) (hgc : g c = c) :
    ∀ (hs : List String) (r : List (Option String)),
      getCell ((hs.filter p).map g) (applyMask (hs.map p) r) c = getCell hs r c := by
  intro hs
  induction hs with
  | nil => intro r; simp [applyMask_nil_mask, getCell_nil_headers]
  | cons h hs ih =>
    intro r
    cases r with
    | nil =>
      rw [applyMask_nil_list, getCell_nil_row, getCell_nil_row]
    | cons x xs =>
      by_cases hph : p h = true
      · simp only [List.filter_cons, hph, if_true, List.map_cons, applyMask, getCell]
        by_cases hhc : h = c
        · rw [if_pos (hhc ▸ hgc), if_pos hhc]
        · rw [if_neg (fun he => hhc (hg h he)), if_neg hhc, ih xs]
      · have hhc : h ≠ c := fun he => hph (he ▸ hc)
        simp only [List.filter_cons, hph, if_false, List.map_cons, applyMask, getCell]
        rw [if_neg hhc]
        exact ih xs

theorem renameCol_ne_rank (h : String) (he : renameCol h = "Rank") : h = "Rank" := by
  unfold renameCol at he
  by_cases h1 : h = "Singles points"
  · rw [if_pos h1] at he; exact absurd he (by decide)
  · rw [if_neg h1] at he
    by_cases h2 : h = "Doubles points"
    · rw [if_pos h2] at he; exact absurd he (by decide)
    · rwa [if_neg h2] at he

theorem renameCol_ne_player (h : String) (he : renameCol h = "Player") : h = "Player" := by
  unfold renameCol at he
  by_cases h1 : h = "Singles points"
  · rw [if_pos h1] at he; exact absurd he (by decide)
  · rw [if_neg h1] at he
    by_cases h2 : h = "Doubles points"
    · rw [if_pos h2] at he; exact absurd he (by decide)
    · rwa [if_neg h2] at he

theorem renameCol_idem (h : String) : renameCol (renameCol h) = renameCol h := by
  by_cases h1 : h = "Singles points"
  · rw [h1]; decide
  · by_cases h2 : h = "Doubles points"
    · rw [h2]; decide
    · unfold renameCol
      rw [if_neg h1, if_neg h2, if_neg h1, if_neg h2]

theorem notUnnamed_renameCol (h : String) (hn : notUnnamed h = true) :
    notUnnamed (renameCol h) = true := by
  by_cases h1 : h = "Singles points"
  · rw [h1]; decide
  · by_cases h2 : h = "Doubles points"
    · rw [h2]; decide
    · unfold renameCol
      rwa [if_neg h1, if_neg h2]

theorem findRanking_skip (pre l : List Table)
    (hpre : ∀ u ∈ pre, rankingMatches (trimHeaders u) = false) :
    findRanking (pre ++ l) = findRanking l := by
  induction pre with
  | nil => rfl
  | cons u us ih =>
    have hu : rankingMatches (trimHeaders u) = false := hpre u (by simp)
    simp only [List.cons_append, findRanking, hu, Bool.false_eq_true, if_false]
    exact ih (fun v hv => hpre v (by simp [hv]))

theorem findEntries_skip (pre l : List Table)
    (hpre : ∀ u ∈ pre,
      (entriesMatches (trimHeaders u) && !(entryNames (trimHeaders u)).isEmpty) = false) :
    findEntries (pre ++ l) = findEntries l := by
  induction pre with
  | nil => rfl
  | cons u us ih =>
    have hu := hpre u (by simp)
    have ihl := ih (fun v hv => hpre v (by simp [hv]))
    by_cases hm : entriesMatches (trimHeaders u) = true
    · have hemp : (entryNames (trimHeaders u)).isEmpty = true := by
        rw [hm, Bool.true_and] at hu
        simpa using hu
      simp only [List.cons_append, findEntries, hm, if_true, hemp]
      exact ihl
    · simp only [List.cons_append, findEntries, hm, if_false]
      exact ihl

theorem keep_eq_not_dropped (hs : List String) (r : List (Option String)) :
    (playerOk hs r && !isBadRank hs r) = !droppedRankingRow hs r := by
  simp only [playerOk, isBadRank, droppedRankingRow, Bool.not_or, bne]
  cases containsSub (pyLower (cellStr (getCell hs r "Rank"))) "page" <;>
    cases containsSub (pyLower (cellStr (getCell hs r "Rank"))) "results" <;>
    cases pyStrip (cellStr (getCell hs r "Player")) == "" <;>
    cases pyStrip (cellStr (getCell hs r "Player")) == "Player" <;> rfl

theorem filterRankingRows_rows (u : Table) :
    (filterRankingRows u).rows
      = u.rows.filter (fun r => !droppedRankingRow u.headers r) := by
  show (u.rows.filter (fun r => !isBadRank u.headers r)).filter
      (fun r => playerOk u.headers r) = _
  rw [List.filter_filter]
  exact List.filter_congr (fun r _ => keep_eq_not_dropped u.headers r)

theorem sanitizeRanking_rows (u : Table) :
    (sanitizeRanking u).rows
      = (u.rows.filter (fun r => !droppedRankingRow u.headers r)).map
          (applyMask (u.headers.map notUnnamed)) := by
  show ((filterRankingRows u).rows).map (applyMask (u.headers.map notUnnamed)) = _
  rw [filterRankingRows_rows]

/-- C1: for every parsed table whose trimmed headers include "Rank" and
"Player", the ranking sanitization drops exactly the body rows whose
stringified Rank cell contains "page" or "results" case-insensitively or
whose trimmed Player cell is empty or equals "Player"; every other row is
preserved in original order (each surviving row then merely loses its
Unnamed-column cells in the later column step). -/
theorem ranking_sanitization_drops_exactly_noise_rows (t : Table)
    (_hR : (trimHeaders t).headers.contains "Rank" = true)
    (_hP : (trimHeaders t).headers.contains "Player" = true) :
    (filterRankingRows (trimHeaders t)).rows
      = (trimHeaders t).rows.filter
          (fun r => !droppedRankingRow (trimHeaders t).headers r)
    ∧ (sanitizeRanking (trimHeaders t)).rows
      = ((trimHeaders t).rows.filter
          (fun r => !droppedRankingRow (trimHeaders t).headers r)).map
          (applyMask ((trimHeaders t).headers.map notUnnamed)) :=
  ⟨filterRankingRows_rows (trimHeaders t), sanitizeRanking_rows (trimHeaders t)⟩

theorem ranking_sanitization_drops_exactly_noise_rows_witness :
    (filterRankingRows (trimHeaders cT1)).rows
      = (trimHeaders cT1).rows.filter
          (fun r => !droppedRankingRow (trimHeaders cT1).headers r) :=
  (ranking_sanitization_drops_exactly_noise_rows cT1 (by decide) (by decide)).1

/-- C2: the first candidate (in scan order) whose trimmed header set
contains both "Rank" and "Player" is selected and sanitized; earlier
non-matching candidates and all later candidates contribute nothing. -/
theorem first_matching_ranking_candidate_selected (pre : List Table) (t : Table)
    (suf : List Table)
    (hpre : ∀ u ∈ pre, rankingMatches (trimHeaders u) = false)
    (ht : rankingMatches (trimHeaders t) = true) :
    extract_ranking_table (some (pre ++ t :: suf))
      = some (sanitizeRanking (trimHeaders t)) := by
  show findRanking (pre ++ t :: suf) = _
  rw [findRanking_skip pre _ hpre]
  simp [findRanking, ht]

theorem first_matching_ranking_candidate_selected_witness :
    extract_ranking_table (some ([cNoMatch] ++ cT1 :: [cT2]))
      = some (sanitizeRanking (trimHeaders cT1)) :=
  first_matching_ranking_candidate_selected [cNoMatch] cT1 [cT2] (by decide) (by decide)

/-- C3: the entries extraction returns the first candidate whose trimmed
headers contain "Name" and a header containing "date" case-insensitively
AND whose sanitized row set is non-empty; matching candidates that
sanitize to zero rows are passed over like non-matching ones. -/
theorem first_valid_entries_candidate_selected (pre : List Table) (t : Table)
    (suf : List Table)
    (hpre : ∀ u ∈ pre,
      (entriesMatches (trimHeaders u) && !(entryNames (trimHeaders u)).isEmpty) = false)
    (ht : entriesMatches (trimHeaders t) = true)
    (hne : (entryNames (trimHeaders t)).isEmpty = false) :
    extract_online_entries_table (some (pre ++ t :: suf))
      = some (sanitizeEntriesTable (trimHeaders t)) := by
  show findEntries (pre ++ t :: suf) = _
  rw [findEntries_skip pre _ hpre]
  simp [findEntries, ht, hne]

theorem first_valid_entries_candidate_selected_witness :
    extract_online_entries_table (some ([cNoMatch, cEEmpty] ++ cE1 :: []))
      = some (sanitizeEntriesTable (trimHeaders cE1)) :=
  first_valid_entries_candidate_selected [cNoMatch, cEEmpty] cE1 []
    (by decide) (by decide) (by decide)

/-- C8: a parse failure (no parseable table) and an input where no
candidate satisfies the schema predicate both yield the distinguished
absence value `none`, for both extraction functions. -/
theorem extractions_return_none_on_no_table_or_no_match :
    extract_ranking_table none = none ∧
    extract_online_entries_table none = none ∧
    (∀ ts : List Table, (∀ u ∈ ts, rankingMatches (trimHeaders u) = false) →
      extract_ranking_table (some ts) = none) ∧
    (∀ ts : List Table, (∀ u ∈ ts, entriesMatches (trimHeaders u) = false) →
      extract_online_entries_table (some ts) = none) := by
  refine ⟨rfl, rfl, ?_, ?_⟩
  · intro ts h
    show findRanking ts = none
    have hr := findRanking_skip ts [] h
    simpa [findRanking] using hr
  · intro ts h
    show findEntries ts = none
    have he := findEntries_skip ts [] (fun u hu => by simp [h u hu])
    simpa [findEntries] using he

theorem extractions_return_none_on_no_table_or_no_match_witness :
    extract_ranking_table (some [cE1]) = none
      ∧ extract_online_entries_table (some [cNoMatch]) = none :=
  ⟨extractions_return_none_on_no_table_or_no_match.2.2.1 [cE1] (by decide),
   extractions_return_none_on_no_table_or_no_match.2.2.2 [cNoMatch] (by decide)⟩

/-- C10: unlike the entries pipeline, the ranking extraction keeps a first
matching candidate even when it sanitizes to zero rows: the empty result
is returned and later candidates (even matching, non-empty ones in `suf`)
are never examined. -/
theorem ranking_keeps_empty_sanitized_candidate (pre : List Table) (t : Table)
    (suf : List Table)
    (hpre : ∀ u ∈ pre, rankingMatches (trimHeaders u) = false)
    (ht : rankingMatches (trimHeaders t) = true)
    (hempty : (sanitizeRanking (trimHeaders t)).rows = []) :
    extract_ranking_table (some (pre ++ t :: suf))
        = some (sanitizeRanking (trimHeaders t))
      ∧ (extract_ranking_table (some (pre ++ t :: suf))).map Table.rows
        = some ([] : List (List (Option String))) := by
  have h1 : extract_ranking_table (some (pre ++ t :: suf))
      = some (sanitizeRanking (trimHeaders t)) := by
    show findRanking (pre ++ t :: suf) = _
    rw [findRanking_skip pre _ hpre]
    simp [findRanking, ht]
  exact ⟨h1, by rw [h1, Option.map_some', hempty]⟩

theorem ranking_keeps_empty_sanitized_candidate_witness :
    extract_ranking_table (some ([] ++ cTEmpty :: [cT2]))
        = some (sanitizeRanking (trimHeaders cTEmpty))
      ∧ (extract_ranking_table (some ([] ++ cTEmpty :: [cT2]))).map Table.rows
        = some ([] : List (List (Option String))) :=
  ranking_keeps_empty_sanitized_candidate [] cTEmpty [cT2]
    (by decide) (by decide) (by decide)

theorem entryNames_via (u : Table) :
    entryNames u = ((dropnaName (filterWithdrawn u)).rows.map
      (fun r => pyStrip (cellStr (getCell (dropnaName (filterWithdrawn u)).headers r "Name")))).filter
      (fun n => !invalidNames.contains (pyLower n)) := rfl

theorem entryNames_eq_filter_map (t : Table) :
    entryNames t
      = (t.rows.filter (keepEntryRow t.headers)).map
          (fun r => pyStrip (cellStr (getCell t.headers r "Name"))) := by
  by_cases hS : t.headers.contains "Status" = true
  · have h1 : filterWithdrawn t
        = { t with rows := t.rows.filter (fun r => !withdrawnRow t.headers r) } := by
      unfold filterWithdrawn
      rw [if_pos hS]
    rw [entryNames_via, h1]
    show ((((t.rows.filter (fun r => !withdrawnRow t.headers r)).filter
        (fun r => (getCell t.headers r "Name").isSome)).map
        (fun r => pyStrip (cellStr (getCell t.headers r "Name")))).filter
        (fun n => !invalidNames.contains (pyLower n))) = _
    rw [List.filter_map, List.filter_filter, List.filter_filter]
    refine congrArg _ (List.filter_congr (fun r _ => ?_))
    simp only [keepEntryRow, hS, Bool.not_true, Bool.false_or, Function.comp]
    cases withdrawnRow t.headers r <;>
      cases (getCell t.headers r "Name").isSome <;>
      cases invalidNames.contains (pyLower (pyStrip (cellStr (getCell t.headers r "Name")))) <;>
      rfl
  · have h1 : filterWithdrawn t = t := by
      unfold filterWithdrawn
      rw [if_neg hS]
    have hS' : t.headers.contains "Status" = false := by simpa using hS
    rw [entryNames_via, h1]
    show (((t.rows.filter (fun r => (getCell t.headers r "Name").isSome)).map
        (fun r => pyStrip (cellStr (getCell t.headers r "Name")))).filter
        (fun n => !invalidNames.contains (pyLower n))) = _
    rw [List.filter_map, List.filter_filter]
    refine congrArg _ (List.filter_congr (fun r _ => ?_))
    simp only [keepEntryRow, hS', Bool.not_false, Bool.true_or, Bool.true_and, Function.comp]
    cases (getCell t.headers r "Name").isSome <;>
      cases invalidNames.contains (pyLower (pyStrip (cellStr (getCell t.headers r "Name")))) <;>
      rfl

/-- C4: the entries sanitization drops Withdrawn rows (when a Status column
exists), null Names, and rows whose trimmed lowercased Name is a placeholder,
in a single pass equivalent to the ordered steps; the result is exactly the
trimmed Name column, and a whitespace-padded "Alex Smith" is retained
trimmed (shown on the concrete page `cE1`). -/
theorem entries_sanitization_steps (t : Table) :
    entryNames t
      = (t.rows.filter (keepEntryRow t.headers)).map
          (fun r => pyStrip (cellStr (getCell t.headers r "Name")))
    ∧ (sanitizeEntriesTable t).headers = ["Name"]
    ∧ entryNames cE1 = ["Alex Smith"]
    ∧ pyStrip "  Alex Smith  " = "Alex Smith" :=
  ⟨entryNames_eq_filter_map t, rfl, by decide, by decide⟩

/-- C6: the ranking column steps drop exactly the Unnamed-prefixed columns,
rename "Singles points" and "Doubles points" exactly and leave every other
header untouched, and change no cell values and no rows: each row keeps its
position and its surviving cells in order. -/
theorem ranking_column_steps (t : Table) :
    (renameCols (dropUnnamedCols t)).headers
      = (t.headers.filter notUnnamed).map renameCol
    ∧ (renameCols (dropUnnamedCols t)).rows
      = t.rows.map (applyMask (t.headers.map notUnnamed))
    ∧ (renameCols (dropUnnamedCols t)).rows.length = t.rows.length
    ∧ renameCol "Singles points" = "Singles Points"
    ∧ renameCol "Doubles points" = "Doubles Points"
    ∧ (∀ h : String, h ≠ "Singles points" → h ≠ "Doubles points" → renameCol h = h)
    ∧ (∀ r : List (Option String), (applyMask (t.headers.map notUnnamed) r).Sublist r) := by
  refine ⟨?_, rfl, by simp [renameCols, dropUnnamedCols], by decide, by decide, ?_, ?_⟩
  · show (applyMask (t.headers.map notUnnamed) t.headers).map renameCol = _
    rw [applyMask_map_self]
  · intro h h1 h2
    unfold renameCol
    rw [if_neg h1, if_neg h2]
  · intro r
    exact applyMask_sublist _ r

theorem ranking_column_steps_witness : renameCol "Points" = "Points" :=
  (ranking_column_steps cPlainTbl).2.2.2.2.2.1 "Points" (by decide) (by decide)

/-- C7: the final rankings step removes a column literally named "Rank.1"
when present (keeping all other columns, all rows and their order) and is
the identity when no such column exists. -/
theorem rank1_artifact_column_handling (t : Table) :
    (t.headers.contains "Rank.1" = true →
      dropRank1 t
        = { headers := applyMask (t.headers.map (fun h => !(h == "Rank.1"))) t.headers,
            rows := t.rows.map (applyMask (t.headers.map (fun h => !(h == "Rank.1")))) }
      ∧ (dropRank1 t).headers = t.headers.filter (fun h => !(h == "Rank.1"))
      ∧ (dropRank1 t).rows.length = t.rows.length)
    ∧ (t.headers.contains "Rank.1" = false → dropRank1 t = t) := by
  constructor
  · intro hmem
    have hd : dropRank1 t
        = { headers := applyMask (t.headers.map (fun h => !(h == "Rank.1"))) t.headers,
            rows := t.rows.map (applyMask (t.headers.map (fun h => !(h == "Rank.1")))) } := by
      unfold dropRank1
      rw [if_pos hmem]
    refine ⟨hd, ?_, ?_⟩
    · rw [hd]
      show applyMask (t.headers.map (fun h => !(h == "Rank.1"))) t.headers = _
      rw [applyMask_map_self]
    · rw [hd]
      simp
  · intro hmem
    unfold dropRank1
    have hn : ¬(t.headers.contains "Rank.1" = true) := by
      rw [hmem]
      exact Bool.false_ne_true
    rw [if_neg hn]

theorem rank1_artifact_column_handling_witness :
    (dropRank1 cRank1Tbl).headers = cRank1Tbl.headers.filter (fun h => !(h == "Rank.1"))
      ∧ dropRank1 cPlainTbl = cPlainTbl :=
  ⟨((rank1_artifact_column_handling cRank1Tbl).1 (by decide)).2.1,
   (rank1_artifact_column_handling cPlainTbl).2 (by decide)⟩

theorem pagesConcat_zero (fetch : Nat → Option Table) (page : Nat) :
    pagesConcat fetch page 0 = [] := by
  simp [pagesConcat]

theorem pagesConcat_succ (fetch : Nat → Option Table) (page n : Nat) :
    pagesConcat fetch page (n + 1)
      = pageYield fetch page ++ pagesConcat fetch (page + 1) n := by
  unfold pagesConcat
  rw [List.range_succ_eq_map, List.map_cons, List.map_map, List.flatten_cons, Nat.add_zero]
  have hf : ((fun i => pageYield fetch (page + i)) ∘ Nat.succ)
      = (fun i => pageYield fetch (page + 1 + i)) := by
    funext i
    show pageYield fetch (page + (i + 1)) = pageYield fetch (page + 1 + i)
    congr 1
    omega
  rw [hf]

theorem collectPages_no_stop (fetch : Nat → Option Table) (m : Nat) :
    ∀ (fuel page : Nat) (acc : List Table),
      (∀ k, k + 1 < fuel → totalRows (acc ++ pagesConcat fetch page (k + 1)) < m) →
      collectPages fetch m fuel page acc = acc ++ pagesConcat fetch page fuel := by
  intro fuel
  induction fuel with
  | zero =>
    intro page acc _
    rw [pagesConcat_zero, List.append_nil]
    rfl
  | succ fuel ih =>
    intro page acc h
    rw [pagesConcat_succ]
    cases fuel with
    | zero =>
      rw [pagesConcat_zero, List.append_nil]
      simp only [collectPages]
      split <;> rfl
    | succ fuel2 =>
      have hstop : ¬ (m ≤ totalRows (acc ++ pageYield fetch page)) := by
        have h0 := h 0 (by omega)
        rw [pagesConcat_succ, pagesConcat_zero, List.append_nil] at h0
        omega
      simp only [collectPages]
      rw [if_neg hstop, ← List.append_assoc]
      apply ih
      intro k hk
      have hkk := h (k + 1) (by omega)
      rw [pagesConcat_succ, ← List.append_assoc] at hkk
      exact hkk

theorem collectPages_stop (fetch : Nat → Option Table) (m fuel page : Nat)
    (acc : List Table) (h : m ≤ totalRows (acc ++ pageYield fetch page)) :
    collectPages fetch m (fuel + 1) page acc = acc ++ pageYield fetch page := by
  simp only [collectPages]
  rw [if_pos h]

theorem concatTables_rows_length (ts : List Table) :
    (concatTables ts).rows.length = totalRows ts := by
  show ((ts.map (fun t =>
      t.rows.map (fun r => (unionHeaders ts).map (fun h => getCell t.headers r h)))).flatten).length
    = totalRows ts
  rw [List.length_flatten, List.map_map]
  unfold totalRows
  congr 1
  apply List.map_congr_left
  intro t _
  show (t.rows.map _).length = t.rows.length
  rw [List.length_map]

theorem dropRank1_rows_length (t : Table) : (dropRank1 t).rows.length = t.rows.length := by
  unfold dropRank1
  split
  · simp
  · rfl

theorem pagesNeeded_bounds (m r : Nat) (hm : 0 < m) (hr : 0 < r) :
    m ≤ r * pagesNeeded m r ∧ r * (pagesNeeded m r - 1) < m := by
  unfold pagesNeeded
  have hdm := Nat.div_add_mod (m + r - 1) r
  have hlt : (m + r - 1) % r < r := Nat.mod_lt _ hr
  constructor
  · generalize hq : (m + r - 1) / r = q at hdm
    generalize hX : r * q = X at hdm
    omega
  · cases hq : (m + r - 1) / r with
    | zero => simpa using hm
    | succ q =>
      rw [hq] at hdm
      rw [Nat.succ_sub_one]
      rw [Nat.mul_succ] at hdm
      generalize hY : r * q = Y at hdm ⊢
      omega

theorem scrape_rankings_eq (fetch : Nat → Option Table) (m r : Nat)
    (hne : collectPages fetch m (pagesNeeded m r) 1 [] ≠ []) :
    scrape_rankings fetch m r
      = some (dropRank1
          { headers := (concatTables (collectPages fetch m (pagesNeeded m r) 1 [])).headers,
            rows := (concatTables (collectPages fetch m (pagesNeeded m r) 1 [])).rows.take m }) := by
  show (if (collectPages fetch m (pagesNeeded m r) 1 []).isEmpty then none
    else some (dropRank1
      { headers := (concatTables (collectPages fetch m (pagesNeeded m r) 1 [])).headers,
        rows := (concatTables (collectPages fetch m (pagesNeeded m r) 1 [])).rows.take m })) = _
  rw [if_neg (by simp [List.isEmpty_iff, hne])]

/-- C5: the rankings aggregator plans exactly `ceil(max_players /
results_per_page)` pages (`pagesNeeded` is the least page count covering
`max_players` at `results_per_page` rows per page, and absent an early stop
the loop consumes exactly the planned pages in order); it stops fetching as
soon as the accumulated row count reaches `max_players`; and the final
concatenation is truncated to at most `max_players` rows, discarding
nothing when the accumulated total does not exceed `max_players`. -/
theorem rankings_aggregation_plan_stop_truncate (m r : Nat) (hm : 0 < m) (hr : 0 < r) :
    (m ≤ r * pagesNeeded m r ∧ r * (pagesNeeded m r - 1) < m)
    ∧ (∀ (fetch : Nat → Option Table) (fuel page : Nat) (acc : List Table),
        m ≤ totalRows (acc ++ pageYield fetch page) →
        collectPages fetch m (fuel + 1) page acc = acc ++ pageYield fetch page)
    ∧ (∀ (fetch : Nat → Option Table) (fuel page : Nat) (acc : List Table),
        (∀ k, k + 1 < fuel → totalRows (acc ++ pagesConcat fetch page (k + 1)) < m) →
        collectPages fetch m fuel page acc = acc ++ pagesConcat fetch page fuel)
    ∧ (∀ (fetch : Nat → Option Table) (T : Table),
        scrape_rankings fetch m r = some T → T.rows.length ≤ m)
    ∧ (∀ fetch : Nat → Option Table,
        collectPages fetch m (pagesNeeded m r) 1 [] ≠ [] →
        scrape_rankings fetch m r
          = some (dropRank1
              { headers := (concatTables (collectPages fetch m (pagesNeeded m r) 1 [])).headers,
                rows := (concatTables (collectPages fetch m (pagesNeeded m r) 1 [])).rows.take m }))
    ∧ (∀ fetch : Nat → Option Table,
        totalRows (collectPages fetch m (pagesNeeded m r) 1 []) ≤ m →
        (concatTables (collectPages fetch m (pagesNeeded m r) 1 [])).rows.take m
          = (concatTables (collectPages fetch m (pagesNeeded m r) 1 [])).rows) := by
  refine ⟨pagesNeeded_bounds m r hm hr,
    fun fetch fuel page acc h => collectPages_stop fetch m fuel page acc h,
    fun fetch fuel page acc h => collectPages_no_stop fetch m fuel page acc h,
    ?_, fun fetch hne => scrape_rankings_eq fetch m r hne, ?_⟩
  · intro fetch T h
    by_cases hne : collectPages fetch m (pagesNeeded m r) 1 [] = []
    · exfalso
      have : scrape_rankings fetch m r = none := by
        show (if (collectPages fetch m (pagesNeeded m r) 1 []).isEmpty then none else _) = none
        rw [if_pos (by simp [List.isEmpty_iff, hne])]
      rw [this] at h
      exact Option.noConfusion h
    · rw [scrape_rankings_eq fetch m r hne] at h
      have hT := Option.some.inj h
      rw [← hT, dropRank1_rows_length]
      show ((concatTables _).rows.take m).length ≤ m
      rw [List.length_take]
      exact Nat.min_le_left _ _
  · intro fetch hle
    apply List.take_of_length_le
    rw [concatTables_rows_length]
    exact hle

theorem rankings_aggregation_plan_stop_truncate_witness :
    (3 ≤ 2 * pagesNeeded 3 2 ∧ 2 * (pagesNeeded 3 2 - 1) < 3)
      ∧ scrape_rankings cFetch 3 2
        = some (dropRank1
            { headers := (concatTables (collectPages cFetch 3 (pagesNeeded 3 2) 1 [])).headers,
              rows := (concatTables (collectPages cFetch 3 (pagesNeeded 3 2) 1 [])).rows.take 3 }) :=
  ⟨(rankings_aggregation_plan_stop_truncate 3 2 (by decide) (by decide)).1,
   (rankings_aggregation_plan_stop_truncate 3 2 (by decide) (by decide)).2.2.2.2.1 cFetch
     (by decide)⟩

theorem sanitizeRanking_headers (u : Table) :
    (sanitizeRanking u).headers = (u.headers.filter notUnnamed).map renameCol := by
  show (applyMask (u.headers.map notUnnamed) u.headers).map renameCol = _
  rw [applyMask_map_self]

theorem mem_sanitizeRanking_headers {u : Table} {h' : String}
    (hmem : h' ∈ (sanitizeRanking u).headers) :
    notUnnamed h' = true ∧ renameCol h' = h' := by
  rw [sanitizeRanking_headers] at hmem
  obtain ⟨h, hh, rfl⟩ := List.mem_map.mp hmem
  have hnu : notUnnamed h = true := List.of_mem_filter hh
  exact ⟨notUnnamed_renameCol h hnu, renameCol_idem h⟩

theorem getCell_sanitized_rank (u : Table) (r : List (Option String)) :
    getCell (sanitizeRanking u).headers (applyMask (u.headers.map notUnnamed) r) "Rank"
      = getCell u.headers r "Rank" := by
  rw [sanitizeRanking_headers]
  exact getCell_mask_rename notUnnamed renameCol "Rank" (by decide) renameCol_ne_rank
    (by decide) u.headers r

theorem getCell_sanitized_player (u : Table) (r : List (Option String)) :
    getCell (sanitizeRanking u).headers (applyMask (u.headers.map notUnnamed) r) "Player"
      = getCell u.headers r "Player" := by
  rw [sanitizeRanking_headers]
  exact getCell_mask_rename notUnnamed renameCol "Player" (by decide) renameCol_ne_player
    (by decide) u.headers r

theorem dropped_sanitized (u : Table) (r : List (Option String)) :
    droppedRankingRow (sanitizeRanking u).headers (applyMask (u.headers.map notUnnamed) r)
      = droppedRankingRow u.headers r := by
  unfold droppedRankingRow
  rw [getCell_sanitized_rank, getCell_sanitized_player]

theorem filterRankingRows_sanitized (u : Table) :
    filterRankingRows (sanitizeRanking u) = sanitizeRanking u := by
  have h1 : (filterRankingRows (sanitizeRanking u)).rows = (sanitizeRanking u).rows := by
    rw [filterRankingRows_rows]
    apply List.filter_eq_self.mpr
    intro r' hr'
    rw [sanitizeRanking_rows] at hr'
    obtain ⟨a, ha, rfl⟩ := List.mem_map.mp hr'
    have hkeep : (!droppedRankingRow u.headers a) = true := (List.mem_filter.mp ha).2
    rw [dropped_sanitized]
    exact hkeep
  have h2 : filterRankingRows (sanitizeRanking u)
      = { sanitizeRanking u with rows := (filterRankingRows (sanitizeRanking u)).rows } := rfl
  rw [h2, h1]

theorem dropUnnamedCols_sanitized (u : Table) :
    dropUnnamedCols (sanitizeRanking u) = sanitizeRanking u := by
  have hmask : ∀ b ∈ (sanitizeRanking u).headers.map notUnnamed, b = true := by
    intro b hb
    obtain ⟨h', hh', rfl⟩ := List.mem_map.mp hb
    exact (mem_sanitizeRanking_headers hh').1
  have hlen : ((sanitizeRanking u).headers.map notUnnamed).length
      = (sanitizeRanking u).headers.length := List.length_map _ _
  have hh : applyMask ((sanitizeRanking u).headers.map notUnnamed)
      (sanitizeRanking u).headers = (sanitizeRanking u).headers := by
    rw [applyMask_all_true _ _ hmask, hlen, List.take_of_length_le (Nat.le_refl _)]
  have hr : ∀ r' ∈ (sanitizeRanking u).rows,
      applyMask ((sanitizeRanking u).headers.map notUnnamed) r' = r' := by
    intro r' hr'
    rw [applyMask_all_true _ _ hmask, hlen]
    apply List.take_of_length_le
    rw [sanitizeRanking_rows] at hr'
    obtain ⟨a, _, rfl⟩ := List.mem_map.mp hr'
    rw [sanitizeRanking_headers, List.length_map]
    exact applyMask_map_length_le notUnnamed u.headers a
  unfold dropUnnamedCols
  rw [hh, map_eq_self_of_mem hr]

theorem renameCols_sanitized (u : Table) :
    renameCols (sanitizeRanking u) = sanitizeRanking u := by
  unfold renameCols
  rw [map_eq_self_of_mem (fun h hh => (mem_sanitizeRanking_headers hh).2)]

theorem sanitizeRanking_idem (u : Table) :
    sanitizeRanking (sanitizeRanking u) = sanitizeRanking u := by
  show renameCols (dropUnnamedCols (filterRankingRows (sanitizeRanking u))) = _
  rw [filterRankingRows_sanitized, dropUnnamedCols_sanitized, renameCols_sanitized]

theorem entryNames_mem_facts {u : Table} {n : String} (hn : n ∈ entryNames u) :
    pyStrip n = n ∧ invalidNames.contains (pyLower n) = false := by
  rw [entryNames_via] at hn
  refine ⟨?_, ?_⟩
  · have hmem := (List.mem_filter.mp hn).1
    obtain ⟨r, _, rfl⟩ := List.mem_map.mp hmem
    exact pyStrip_idem _
  · have hp := List.of_mem_filter hn
    simpa using hp

theorem entryNames_sanitized (u : Table) :
    entryNames (sanitizeEntriesTable u) = entryNames u := by
  rw [entryNames_eq_filter_map]
  show (((entryNames u).map (fun n => [some n])).filter (keepEntryRow ["Name"])).map
      (fun r => pyStrip (cellStr (getCell ["Name"] r "Name"))) = entryNames u
  rw [List.filter_map, List.map_map]
  have h1 : (entryNames u).filter ((keepEntryRow ["Name"]) ∘ (fun n => [some n]))
      = entryNames u := by
    apply List.filter_eq_self.mpr
    intro n hn
    obtain ⟨hstrip, hinv⟩ := entryNames_mem_facts hn
    show keepEntryRow ["Name"] [some n] = true
    have hgc : getCell ["Name"] [some n] "Name" = some n := rfl
    unfold keepEntryRow
    rw [hgc]
    rw [show cellStr (some n) = n from rfl, hstrip, hinv]
    rfl
  rw [h1]
  apply map_eq_self_of_mem
  intro n hn
  obtain ⟨hstrip, _⟩ := entryNames_mem_facts hn
  show pyStrip (cellStr (getCell ["Name"] [some n] "Name")) = n
  rw [show getCell ["Name"] [some n] "Name" = some n from rfl,
    show cellStr (some n) = n from rfl]
  exact hstrip

theorem sanitizeEntriesTable_idem (u : Table) :
    sanitizeEntriesTable (sanitizeEntriesTable u) = sanitizeEntriesTable u := by
  show (⟨["Name"], (entryNames (sanitizeEntriesTable u)).map (fun n => [some n])⟩ : Table)
      = sanitizeEntriesTable u
  rw [entryNames_sanitized]
  rfl

/-- C9: both sanitizations are idempotent: re-running the ranking
sanitization on an already-sanitized ranking candidate, or the entries
sanitization steps on an already-sanitized entries result, removes no
further rows or columns and changes no labels. -/
theorem sanitization_idempotent (t : Table) :
    sanitizeRanking (sanitizeRanking t) = sanitizeRanking t
      ∧ sanitizeEntriesTable (sanitizeEntriesTable t) = sanitizeEntriesTable t :=
  ⟨sanitizeRanking_idem t, sanitizeEntriesTable_idem t⟩
